import Mathlib

/-!
Verification of the catalog-enrichment workflow described by the repository's
specification.  The repository ships tutorial notebooks that call the SPLAT
database helpers (`prepDB`, `getPhotometry`/`queryVizier`, `queryXMatch`); the
helpers themselves are not part of the repository sources, so the definitions
below are modelled from the specification's description of each operation
(sections 3, 4.1-4.3 and 7 of the spec) and the notebook call sites.
Coordinates are rational numbers in decimal degrees; tables are ordered lists
of records; the remote services are explicit functional parameters.
-/

namespace SplatDB

/-- A sky position in decimal degrees: right ascension and declination. -/
@[ext]
structure Coordinate where
  ra : ℚ
  dec : ℚ
deriving DecidableEq

/-- Modelled from the spec: a designation encodes a coordinate pair in
fixed-precision zero-padded sexagesimal with a sign character for declination.
The fields are the sexagesimal digit groups: right ascension hours, minutes
and hundredths of seconds of time, and declination sign, degrees, arcminutes
and tenths of arcseconds.  The zero-padded designation string is exactly the
decimal rendering of these fields, so the structure carries the same
information as the string. -/
@[ext]
structure Desig where
  jhh : ℕ
  jmm : ℕ
  jssc : ℕ
  sign : Bool
  dd : ℕ
  dm : ℕ
  dst : ℕ
deriving DecidableEq

/-- A designation matches the expected encoding when each sexagesimal field is
in range and a negative sign only occurs with a nonzero declination part. -/
def Desig.valid (d : Desig) : Prop :=
  d.jhh < 24 ∧ d.jmm < 60 ∧ d.jssc < 6000 ∧ d.dd ≤ 90 ∧ d.dm < 60 ∧ d.dst < 600 ∧
    (d.dd = 90 → d.dm = 0 ∧ d.dst = 0) ∧ (d.sign = false → 0 < d.dd + d.dm + d.dst)

instance : DecidablePred Desig.valid := by
  intro d
  unfold Desig.valid
  infer_instance

/-- Total number of hundredths of seconds of time encoded in the right
ascension part of a designation (1 degree = 24000 such units). -/
def Desig.raUnits (d : Desig) : ℕ :=
  d.jhh * 360000 + d.jmm * 6000 + d.jssc

/-- Total number of tenths of arcseconds encoded in the declination part of a
designation (1 degree = 36000 such units). -/
def Desig.decUnits (d : Desig) : ℕ :=
  d.dd * 36000 + d.dm * 600 + d.dst

/-- Modelled from the spec: generate a designation deterministically from a
coordinate pair with the fixed formatting convention, truncating right
ascension to hundredths of seconds of time and declination to tenths of
arcseconds; a declination that truncates to zero gets the positive sign. -/
def coordinateToDesignation (c : Coordinate) : Desig :=
  { jhh := (Int.floor (c.ra * 24000)).toNat / 360000
    jmm := (Int.floor (c.ra * 24000)).toNat % 360000 / 6000
    jssc := (Int.floor (c.ra * 24000)).toNat % 6000
    sign := decide ((Int.floor (|c.dec| * 36000)).toNat = 0 ∨ 0 ≤ c.dec)
    dd := (Int.floor (|c.dec| * 36000)).toNat / 36000
    dm := (Int.floor (|c.dec| * 36000)).toNat % 36000 / 600
    dst := (Int.floor (|c.dec| * 36000)).toNat % 600 }

/-- Modelled from the spec: parse the sexagesimal-encoded right ascension and
declination embedded in a designation back into decimal degrees. -/
def designationToCoordinate (d : Desig) : Coordinate :=
  { ra := (d.raUnits : ℚ) / 24000
    dec := (if d.sign = true then (1 : ℚ) else -1) * ((d.decUnits : ℚ) / 36000) }

/-- One record returned by a remote catalog for a search around a point: its
coordinate, a mapping of catalog-specific field names to scalar values, and
the angular separation from the query point (in arcseconds). -/
structure CatalogEntry where
  coord : Coordinate
  fields : List (String × ℚ)
  separation : ℚ
deriving DecidableEq

/-- One astronomical source: an optional designation, an optional coordinate
pair, and an open-ended mapping of extra scalar columns.  A cell value of
`none` is the sentinel meaning "no match found". -/
structure SourceRecord where
  designation : Option Desig
  coord : Option Coordinate
  extra : List (String × Option ℚ)
deriving DecidableEq

/-- Errors raised by table preparation: a designation that does not match the
expected sexagesimal encoding, or a row carrying neither a designation nor a
coordinate pair. -/
inductive PrepError where
  | parseError : PrepError
  | missingKeys : PrepError
deriving DecidableEq

/-- Modelled from the spec: prepare one row of a table.  A row that already
carries a coordinate keeps it, and gains a designation generated from the
coordinate when it lacks one; a row with only a designation gains the
coordinate parsed from it, failing with a parse error when the designation
does not match the expected encoding; a row with neither fails. -/
def prepRow (r : SourceRecord) : Except PrepError SourceRecord :=
  match r.coord, r.designation with
  | some _, some _ => .ok r
  | some c, none => .ok { r with designation := some (coordinateToDesignation c) }
  | none, some d =>
    if d.valid then .ok { r with coord := some (designationToCoordinate d) }
    else .error .parseError
  | none, none => .error .missingKeys

/-- Modelled from the spec: prepare a whole table row by row, preserving the
row order; the first failing row aborts with its error. -/
def prepDB : List SourceRecord → Except PrepError (List SourceRecord)
  | [] => .ok []
  | r :: t =>
    match prepRow r with
    | .error e => .error e
    | .ok r' =>
      match prepDB t with
      | .error e => .error e
      | .ok t' => .ok (r' :: t')

/-- Stable ordered insertion by ascending separation: an entry is placed
before the first existing entry with strictly larger separation, so entries
with equal separations keep their relative order. -/
def insertBySep (e : CatalogEntry) : List CatalogEntry → List CatalogEntry
  | [] => [e]
  | f :: rest =>
    if e.separation ≤ f.separation then e :: f :: rest else f :: insertBySep e rest

/-- Stable insertion sort of catalog entries by ascending separation, used to
order a catalog response by distance from the query point. -/
def sortBySep : List CatalogEntry → List CatalogEntry
  | [] => []
  | e :: rest => insertBySep e (sortBySep rest)

/-- The earliest entry of minimal separation, in catalog-return order. -/
def firstMin : List CatalogEntry → Option CatalogEntry
  | [] => none
  | e :: rest =>
    match firstMin rest with
    | none => some e
    | some m => some (if m.separation < e.separation then m else e)

/-- Errors of the single-source lookup: invalid caller parameters or a
remote-service failure. -/
inductive QueryError where
  | invalidParameter : QueryError
  | remoteService : QueryError
deriving DecidableEq

/-- Modelled from the spec: single-source lookup.  `svc` is the outcome of
the remote catalog query (the candidate entries with their separations, or a
remote failure).  The radius is validated first: a missing or non-positive
radius fails with the invalid-parameter error, whatever the remote service
would return.  Otherwise candidates within the radius are returned sorted by
ascending separation, truncated to at most one entry in nearest-only mode. -/
def getPhotometry (svc : Except QueryError (List CatalogEntry))
    (radius : Option ℚ) (nearest : Bool) : Except QueryError (List CatalogEntry) :=
  match radius with
  | none => .error .invalidParameter
  | some rad =>
    if rad ≤ 0 then .error .invalidParameter
    else
      match svc with
      | .error e => .error e
      | .ok entries =>
        .ok (if nearest
          then (sortBySep (entries.filter (fun e => decide (e.separation ≤ rad)))).take 1
          else sortBySep (entries.filter (fun e => decide (e.separation ≤ rad))))

/-- Modelled from the spec and the notebook remark that `queryVizier` is a
duplicate of `getPhotometry`: the same single-source lookup under its other
public name. -/
def queryVizier (svc : Except QueryError (List CatalogEntry))
    (radius : Option ℚ) (nearest : Bool) : Except QueryError (List CatalogEntry) :=
  match radius with
  | none => .error .invalidParameter
  | some rad =>
    if rad ≤ 0 then .error .invalidParameter
    else
      match svc with
      | .error e => .error e
      | .ok entries =>
        .ok (if nearest
          then (sortBySep (entries.filter (fun e => decide (e.separation ≤ rad)))).take 1
          else sortBySep (entries.filter (fun e => decide (e.separation ≤ rad))))

/-- A concrete catalog response with candidates at separations 12, 5 and 30
arcseconds, used to instantiate the nearest-match theorem. -/
def sampleEntries : List CatalogEntry :=
  [CatalogEntry.mk (Coordinate.mk 11 21) [("Jmag", 11)] 12,
    CatalogEntry.mk (Coordinate.mk 10 20) [("Jmag", 10)] 5,
    CatalogEntry.mk (Coordinate.mk 12 22) [("Jmag", 12)] 30]

/-- A remote catalog as described to the batch cross-match: its identifier,
the column names its responses carry, and its fixed default column subset. -/
structure Catalog where
  name : String
  schema : List String
  defaultColumns : List String
deriving DecidableEq

/-- Value of a named field in a catalog entry's field mapping. -/
def lookupField (c : String) (fields : List (String × ℚ)) : Option ℚ :=
  (fields.find? (fun p => p.1 == c)).map Prod.snd

/-- The column-name qualifier of a catalog enrichment: the caller-supplied
alias when given, otherwise the catalog identifier. -/
def catalogTag (cat : Catalog) (aliasOpt : Option String) : String :=
  aliasOpt.getD cat.name

/-- Columns kept for an enrichment: the catalog-specific default subset when
the corresponding flag is set, otherwise the requested columns that exist in
the catalog's schema. -/
def effectiveColumns (cat : Catalog) (selectCols : List String) (useSelect : Bool) :
    List String :=
  if useSelect then cat.defaultColumns
  else selectCols.filter (fun c => decide (c ∈ cat.schema))

/-- Requested columns absent from the catalog's schema; they are reported as
warnings and skipped, never treated as fatal. -/
def columnWarnings (cat : Catalog) (selectCols : List String) (useSelect : Bool) :
    List String :=
  if useSelect then []
  else selectCols.filter (fun c => !decide (c ∈ cat.schema))

/-- The cells appended to one row by one catalog enrichment: the match
coordinate, the separation, and one cell per kept column, every column name
qualified by the catalog tag.  An absent match yields the sentinel `none` in
every appended cell. -/
def appendedColumns (tag : String) (cols : List String) (m : Option CatalogEntry) :
    List (String × Option ℚ) :=
  (tag ++ "_" ++ "RA", m.map (fun e => e.coord.ra)) ::
    (tag ++ "_" ++ "DEC", m.map (fun e => e.coord.dec)) ::
    (tag ++ "_" ++ "angDist", m.map (fun e => e.separation)) ::
    cols.map (fun c => (tag ++ "_" ++ c, m.bind (fun e => lookupField c e.fields)))

/-- Nearest in-radius candidate for local row `i` of a chunk, from the
index-keyed entries of one batched response: the earliest minimum-separation
candidate keyed to `i` whose separation is within the radius. -/
def rowMatch (resp : List (ℕ × CatalogEntry)) (radius : ℚ) (i : ℕ) : Option CatalogEntry :=
  firstMin ((resp.filter
    (fun p => decide (p.1 = i) && decide (p.2.separation ≤ radius))).map Prod.snd)

/-- The match used for local row `i` given one chunk's outcome: a failed
chunk contributes the sentinel to each of its rows. -/
def outcomeMatch (o : Except QueryError (List (ℕ × CatalogEntry))) (radius : ℚ) (i : ℕ) :
    Option CatalogEntry :=
  match o with
  | .error _ => none
  | .ok resp => rowMatch resp radius i

/-- Append one catalog match (or the sentinel) to one row. -/
def enrichRow (tag : String) (cols : List String) (m : Option CatalogEntry)
    (r : SourceRecord) : SourceRecord :=
  { r with extra := r.extra ++ appendedColumns tag cols m }

/-- Map a function of the position over a list, positions starting at `k`. -/
def mapWithIndex {α β : Type} (f : ℕ → α → β) : ℕ → List α → List β
  | _, [] => []
  | k, a :: l => f k a :: mapWithIndex f (k + 1) l

/-- Enrich every row of one chunk from the chunk's batched outcome. -/
def enrichChunk (tag : String) (cols : List String) (radius : ℚ)
    (o : Except QueryError (List (ℕ × CatalogEntry))) (chunk : List SourceRecord) :
    List SourceRecord :=
  mapWithIndex (fun i r => enrichRow tag cols (outcomeMatch o radius i) r) 0 chunk

/-- Modelled from the spec: the enriched rows of a batch cross-match.  The
table is partitioned into chunks of `n + 1` rows; chunk `j` is submitted to
the remote service as one batched request `svc j chunk`, its rows are
enriched from the outcome (a failed chunk leaves its rows at sentinel
values), and the chunk results are concatenated in input order. -/
def xmatchRows (svc : ℕ → List SourceRecord → Except QueryError (List (ℕ × CatalogEntry)))
    (tag : String) (cols : List String) (radius : ℚ) (n : ℕ) :
    ℕ → List SourceRecord → List SourceRecord
  | _, [] => []
  | j, r :: rest =>
    enrichChunk tag cols radius (svc j ((r :: rest).take (n + 1))) ((r :: rest).take (n + 1))
      ++ xmatchRows svc tag cols radius n (j + 1) ((r :: rest).drop (n + 1))
termination_by _ t => t.length
decreasing_by
  simp [List.length_drop]
  omega

/-- Modelled from the spec: the diagnostic records of a batch cross-match —
one record per failed chunk, carrying the chunk index and its error. -/
def xmatchFails (svc : ℕ → List SourceRecord → Except QueryError (List (ℕ × CatalogEntry)))
    (n : ℕ) : ℕ → List SourceRecord → List (ℕ × QueryError)
  | _, [] => []
  | j, r :: rest =>
    (match svc j ((r :: rest).take (n + 1)) with
      | .error e => [(j, e)]
      | .ok _ => [])
      ++ xmatchFails svc n (j + 1) ((r :: rest).drop (n + 1))
termination_by _ t => t.length
decreasing_by
  simp [List.length_drop]
  omega

/-- Result of a batch cross-match: the enriched table, the recorded per-chunk
failures, and the warnings for requested columns absent from the schema. -/
structure XMatchResult where
  table : List SourceRecord
  failures : List (ℕ × QueryError)
  warnings : List String
deriving DecidableEq

/-- Modelled from the spec: batch cross-match.  The table is partitioned into
chunks of `n + 1` rows, one batched positional request is submitted per chunk,
each row gains the nearest in-radius match of its chunk's response under
catalog-tagged column names (or sentinel values), failed chunks are recorded,
and requested columns missing from the catalog schema are reported as
warnings. -/
def queryXMatch (svc : ℕ → List SourceRecord → Except QueryError (List (ℕ × CatalogEntry)))
    (cat : Catalog) (tbl : List SourceRecord) (radius : ℚ) (selectCols : List String)
    (useSelect : Bool) (aliasOpt : Option String) (n : ℕ) : XMatchResult :=
  { table := xmatchRows svc (catalogTag cat aliasOpt)
      (effectiveColumns cat selectCols useSelect) radius n 0 tbl
    failures := xmatchFails svc n 0 tbl
    warnings := columnWarnings cat selectCols useSelect }

/-- Index of the chunk containing absolute row `i` when chunks have `n + 1`
rows. -/
def chunkIndex (n i : ℕ) : ℕ := i / (n + 1)

/-- Offset of absolute row `i` inside its chunk when chunks have `n + 1`
rows. -/
def chunkOffset (n i : ℕ) : ℕ := i % (n + 1)

/-- The chunk of `tbl` containing absolute row `i` when chunks have `n + 1`
rows. -/
def chunkOf (n : ℕ) (tbl : List SourceRecord) (i : ℕ) : List SourceRecord :=
  (tbl.drop (chunkIndex n i * (n + 1))).take (n + 1)

/-- A concrete three-row input table used to instantiate the batch
cross-match theorems. -/
def wTable : List SourceRecord :=
  [SourceRecord.mk none (some (Coordinate.mk 1 1)) [("ID", some 1)],
    SourceRecord.mk none (some (Coordinate.mk 2 2)) [("ID", some 2)],
    SourceRecord.mk none (some (Coordinate.mk 3 3)) [("ID", some 3)]]

/-- A concrete catalog description used to instantiate the batch cross-match
theorems. -/
def wCatalog : Catalog := Catalog.mk "2MASS" ["Jmag", "Hmag", "Kmag"] ["Jmag"]

/-- A second concrete catalog that defines the same field name under a
different identifier. -/
def wCatalogB : Catalog := Catalog.mk "SDSS" ["Jmag"] ["Jmag"]

/-- A concrete batched service that fails on chunk 1 and otherwise matches
the chunk's first row. -/
def wSvc : ℕ → List SourceRecord → Except QueryError (List (ℕ × CatalogEntry)) :=
  fun j _ =>
    if j = 1 then .error .remoteService
    else .ok [(0, CatalogEntry.mk (Coordinate.mk 1 1) [("Jmag", 9)] 10)]

lemma designationToCoordinate_ra (d : Desig) :
    (designationToCoordinate d).ra = (d.raUnits : ℚ) / 24000 := rfl

lemma designationToCoordinate_dec (d : Desig) :
    (designationToCoordinate d).dec
      = (if d.sign = true then (1 : ℚ) else -1) * ((d.decUnits : ℚ) / 36000) := rfl

lemma raUnits_coordinateToDesignation (c : Coordinate) :
    (coordinateToDesignation c).raUnits = (Int.floor (c.ra * 24000)).toNat := by
  simp only [coordinateToDesignation, Desig.raUnits]
  omega

lemma decUnits_coordinateToDesignation (c : Coordinate) :
    (coordinateToDesignation c).decUnits = (Int.floor (|c.dec| * 36000)).toNat := by
  simp only [coordinateToDesignation, Desig.decUnits]
  omega

lemma floor_ra_designation (d : Desig) :
    (Int.floor ((designationToCoordinate d).ra * 24000)).toNat = d.raUnits := by
  rw [designationToCoordinate_ra, div_mul_cancel₀ _ (show (24000 : ℚ) ≠ 0 by norm_num),
    Int.floor_natCast, Int.toNat_natCast]

lemma abs_dec_designation (d : Desig) :
    |(designationToCoordinate d).dec| = (d.decUnits : ℚ) / 36000 := by
  rw [designationToCoordinate_dec]
  cases hs : d.sign
  · rw [if_neg (by simp), neg_one_mul, abs_neg, abs_of_nonneg (by positivity)]
  · rw [if_pos rfl, one_mul, abs_of_nonneg (by positivity)]

lemma floor_dec_designation (d : Desig) :
    (Int.floor (|(designationToCoordinate d).dec| * 36000)).toNat = d.decUnits := by
  rw [abs_dec_designation, div_mul_cancel₀ _ (show (36000 : ℚ) ≠ 0 by norm_num),
    Int.floor_natCast, Int.toNat_natCast]

lemma sign_designation_round (d : Desig) (hd : d.valid) :
    decide ((Int.floor (|(designationToCoordinate d).dec| * 36000)).toNat = 0
      ∨ 0 ≤ (designationToCoordinate d).dec) = d.sign := by
  obtain ⟨-, -, -, -, -, -, -, h8⟩ := hd
  rw [floor_dec_designation]
  cases hs : d.sign
  · have hM : 0 < d.decUnits := by
      have := h8 hs
      simp only [Desig.decUnits]
      omega
    have hneg : (designationToCoordinate d).dec < 0 := by
      rw [designationToCoordinate_dec, hs, if_neg (by simp), neg_one_mul]
      have hpos : (0 : ℚ) < (d.decUnits : ℚ) / 36000 :=
        div_pos (by exact_mod_cast hM) (by norm_num)
      linarith
    simp only [decide_eq_false_iff_not, not_or]
    exact ⟨by omega, not_le.mpr hneg⟩
  · have hpos : (0 : ℚ) ≤ (designationToCoordinate d).dec := by
      rw [designationToCoordinate_dec, hs, if_pos rfl, one_mul]
      positivity
    simp [hpos]

/-- Re-encoding the coordinate parsed from a valid designation restores the
designation exactly. -/
lemma designation_round_trip (d : Desig) (hd : d.valid) :
    coordinateToDesignation (designationToCoordinate d) = d := by
  obtain ⟨h1, h2, h3, h4, h5, h6, h7, h8⟩ := hd
  have hru := floor_ra_designation d
  have hdu := floor_dec_designation d
  have hsgn := sign_designation_round d ⟨h1, h2, h3, h4, h5, h6, h7, h8⟩
  have hraVal : d.raUnits = d.jhh * 360000 + d.jmm * 6000 + d.jssc := rfl
  have hdecVal : d.decUnits = d.dd * 36000 + d.dm * 600 + d.dst := rfl
  ext
  · simp only [coordinateToDesignation]
    rw [hru, hraVal]
    omega
  · simp only [coordinateToDesignation]
    rw [hru, hraVal]
    omega
  · simp only [coordinateToDesignation]
    rw [hru, hraVal]
    omega
  · simp only [coordinateToDesignation]
    exact hsgn
  · simp only [coordinateToDesignation]
    rw [hdu, hdecVal]
    omega
  · simp only [coordinateToDesignation]
    rw [hdu, hdecVal]
    omega
  · simp only [coordinateToDesignation]
    rw [hdu, hdecVal]
    omega

/-- A coordinate in the physical range generates a designation that matches
the expected encoding. -/
lemma coordinateToDesignation_valid (c : Coordinate)
    (h360 : c.ra < 360) (hdec : |c.dec| ≤ 90) :
    (coordinateToDesignation c).valid := by
  have hruB : (Int.floor (c.ra * 24000)).toNat < 8640000 := by
    have hf : Int.floor (c.ra * 24000) < 8640000 := by
      rw [Int.floor_lt]
      push_cast
      nlinarith
    omega
  have hduB : (Int.floor (|c.dec| * 36000)).toNat ≤ 3240000 := by
    have hf : Int.floor (|c.dec| * 36000) ≤ 3240000 := by
      have h1 : Int.floor (|c.dec| * 36000) ≤ Int.floor ((3240000 : ℚ)) :=
        Int.floor_mono (by nlinarith [abs_nonneg c.dec])
      have h2 : Int.floor ((3240000 : ℚ)) = 3240000 := by
        norm_num
      omega
    omega
  simp only [Desig.valid, coordinateToDesignation]
  refine ⟨by omega, by omega, by omega, by omega, by omega, by omega, by omega, ?_⟩
  intro hfalse
  simp only [decide_eq_false_iff_not, not_or] at hfalse
  omega

/-- The right ascension truncation error is nonnegative and below one encoding
unit. -/
lemma ra_truncation_bound (c : Coordinate) (h0 : 0 ≤ c.ra) :
    0 ≤ c.ra - (designationToCoordinate (coordinateToDesignation c)).ra ∧
      c.ra - (designationToCoordinate (coordinateToDesignation c)).ra < 1 / 24000 := by
  rw [designationToCoordinate_ra, raUnits_coordinateToDesignation]
  have hz0 : 0 ≤ Int.floor (c.ra * 24000) := Int.floor_nonneg.mpr (by positivity)
  have hcast : (((Int.floor (c.ra * 24000)).toNat : ℚ)) = ((Int.floor (c.ra * 24000) : ℤ) : ℚ) := by
    exact_mod_cast congrArg (fun z => ((z : ℤ) : ℚ)) (Int.toNat_of_nonneg hz0)
  rw [hcast]
  have hle : ((Int.floor (c.ra * 24000) : ℤ) : ℚ) ≤ c.ra * 24000 := Int.floor_le _
  have hlt : c.ra * 24000 < (Int.floor (c.ra * 24000) : ℤ) + 1 := Int.lt_floor_add_one _
  constructor <;> push_cast at hle hlt ⊢ <;> linarith

/-- The declination truncation error is below one encoding unit in absolute
value. -/
lemma dec_truncation_bound (c : Coordinate) :
    |c.dec - (designationToCoordinate (coordinateToDesignation c)).dec| < 1 / 36000 := by
  rw [designationToCoordinate_dec, decUnits_coordinateToDesignation]
  have hsgn : (coordinateToDesignation c).sign
      = decide ((Int.floor (|c.dec| * 36000)).toNat = 0 ∨ 0 ≤ c.dec) := by
    simp only [coordinateToDesignation]
  rw [hsgn]
  have hz0 : 0 ≤ Int.floor (|c.dec| * 36000) := Int.floor_nonneg.mpr (by positivity)
  have hcast : (((Int.floor (|c.dec| * 36000)).toNat : ℚ)) = ((Int.floor (|c.dec| * 36000) : ℤ) : ℚ) := by
    exact_mod_cast congrArg (fun z => ((z : ℤ) : ℚ)) (Int.toNat_of_nonneg hz0)
  have hle : ((Int.floor (|c.dec| * 36000) : ℤ) : ℚ) ≤ |c.dec| * 36000 := Int.floor_le _
  have hlt : |c.dec| * 36000 < (Int.floor (|c.dec| * 36000) : ℤ) + 1 := Int.lt_floor_add_one _
  by_cases hd0 : 0 ≤ c.dec
  · have habs : |c.dec| = c.dec := abs_of_nonneg hd0
    have hdec : decide ((Int.floor (|c.dec| * 36000)).toNat = 0 ∨ 0 ≤ c.dec) = true := by
      simp [hd0]
    rw [hdec, if_pos rfl, one_mul, hcast]
    rw [abs_lt]
    constructor <;> linarith [hle, hlt, habs]
  · push_neg at hd0
    have habs : |c.dec| = -c.dec := abs_of_neg hd0
    by_cases hz : (Int.floor (|c.dec| * 36000)).toNat = 0
    · have hdec : decide ((Int.floor (|c.dec| * 36000)).toNat = 0 ∨ 0 ≤ c.dec) = true := by
        simp [hz]
      have hzle : ((Int.floor (|c.dec| * 36000) : ℤ) : ℚ) ≤ 0 := by
        exact_mod_cast Int.toNat_eq_zero.mp hz
      rw [hdec, if_pos rfl, one_mul, hz]
      rw [abs_lt]
      push_cast
      constructor <;> linarith [hle, hlt, habs, hzle]
    · have hdec : decide ((Int.floor (|c.dec| * 36000)).toNat = 0 ∨ 0 ≤ c.dec) = false := by
        simp only [decide_eq_false_iff_not, not_or]
        exact ⟨hz, not_le.mpr hd0⟩
      rw [hdec, if_neg (by simp), neg_one_mul, hcast, sub_neg_eq_add]
      rw [abs_lt]
      constructor <;> linarith [hle, hlt, habs]

/-- C5: generating a designation from a coordinate pair is a pure,
deterministic function (equal coordinates give equal designations);
designation→coordinate→designation is the identity on valid designations; and
coordinate→designation→coordinate returns the coordinate up to the fixed
truncation precision, so that re-encoding the parsed coordinate reproduces the
designation exactly. -/
theorem designation_coordinate_round_trip (d : Desig) (c : Coordinate)
    (hd : d.valid) (h0 : 0 ≤ c.ra) (h360 : c.ra < 360) (hdec : |c.dec| ≤ 90) :
    coordinateToDesignation (designationToCoordinate d) = d ∧
    coordinateToDesignation (designationToCoordinate (coordinateToDesignation c))
      = coordinateToDesignation c ∧
    (0 ≤ c.ra - (designationToCoordinate (coordinateToDesignation c)).ra ∧
      c.ra - (designationToCoordinate (coordinateToDesignation c)).ra < 1 / 24000) ∧
    |c.dec - (designationToCoordinate (coordinateToDesignation c)).dec| < 1 / 36000 ∧
    (∀ c₁ c₂ : Coordinate, c₁ = c₂ → coordinateToDesignation c₁ = coordinateToDesignation c₂) :=
  ⟨designation_round_trip d hd,
    designation_round_trip _ (coordinateToDesignation_valid c h360 hdec),
    ra_truncation_bound c h0,
    dec_truncation_bound c,
    fun _ _ h => congrArg _ h⟩

/-- The round-trip theorem instantiated at a concrete valid designation and a
concrete in-range coordinate. -/
theorem designation_coordinate_round_trip_witness :
    ((Desig.mk 5 59 1914 false 14 4 488).valid ∧
      0 ≤ (Coordinate.mk (359) (-29)).ra ∧
      (Coordinate.mk (359) (-29)).ra < 360 ∧
      |(Coordinate.mk (359) (-29)).dec| ≤ 90) ∧
    (coordinateToDesignation (designationToCoordinate (Desig.mk 5 59 1914 false 14 4 488))
        = Desig.mk 5 59 1914 false 14 4 488 ∧
      coordinateToDesignation (designationToCoordinate
          (coordinateToDesignation (Coordinate.mk (359) (-29))))
        = coordinateToDesignation (Coordinate.mk (359) (-29)) ∧
      (0 ≤ (Coordinate.mk (359) (-29)).ra
          - (designationToCoordinate (coordinateToDesignation
              (Coordinate.mk (359) (-29)))).ra ∧
        (Coordinate.mk (359) (-29)).ra
          - (designationToCoordinate (coordinateToDesignation
              (Coordinate.mk (359) (-29)))).ra < 1 / 24000) ∧
      |(Coordinate.mk (359) (-29)).dec
          - (designationToCoordinate (coordinateToDesignation
              (Coordinate.mk (359) (-29)))).dec| < 1 / 36000 ∧
      (∀ c₁ c₂ : Coordinate, c₁ = c₂
          → coordinateToDesignation c₁ = coordinateToDesignation c₂)) :=
  ⟨⟨by decide, by decide, by decide, by decide⟩,
    designation_coordinate_round_trip (Desig.mk 5 59 1914 false 14 4 488)
      (Coordinate.mk (359) (-29)) (by decide) (by decide) (by decide) (by decide)⟩

lemma prepRow_ok_fields {r r' : SourceRecord} (h : prepRow r = .ok r') :
    r'.designation.isSome ∧ r'.coord.isSome ∧ r'.extra = r.extra ∧
      (∀ d, r.designation = some d → r'.designation = some d) ∧
      (∀ c, r.coord = some c → r'.coord = some c) := by
  obtain ⟨dsg, crd, ext⟩ := r
  cases crd with
  | none =>
    cases dsg with
    | none => simp [prepRow] at h
    | some d =>
      by_cases hv : d.valid
      · simp only [prepRow] at h
        rw [if_pos hv] at h
        cases h
        simp
      · simp only [prepRow] at h
        rw [if_neg hv] at h
        exact absurd h (by simp)
  | some c =>
    cases dsg with
    | none =>
      simp only [prepRow] at h
      cases h
      simp
    | some d =>
      simp only [prepRow] at h
      cases h
      simp

lemma prepRow_idem {r r' : SourceRecord} (h : prepRow r = .ok r') :
    prepRow r' = .ok r' := by
  obtain ⟨hd, hc, -, -, -⟩ := prepRow_ok_fields h
  obtain ⟨dsg, crd, ext⟩ := r'
  cases crd with
  | none => simp at hc
  | some c =>
    cases dsg with
    | none => simp at hd
    | some d => rfl

lemma prepRow_ok_of (r : SourceRecord) (h1 : r.designation.isSome ∨ r.coord.isSome)
    (h2 : r.coord = none → ∀ d ∈ r.designation, d.valid) :
    ∃ r', prepRow r = .ok r' := by
  obtain ⟨dsg, crd, ext⟩ := r
  cases crd with
  | none =>
    cases dsg with
    | none => simp at h1
    | some d =>
      have hv : d.valid := h2 rfl d (by simp)
      refine ⟨{ designation := some d
                coord := some (designationToCoordinate d)
                extra := ext }, ?_⟩
      simp only [prepRow]
      rw [if_pos hv]
  | some c =>
    cases dsg with
    | none => exact ⟨_, rfl⟩
    | some d => exact ⟨_, rfl⟩

/-- C3: on a table in which every row carries a designation or a coordinate
pair (with any designation-only row validly encoded), table preparation
succeeds and returns a table of the same length in which every row carries
both a designation and a machine-usable coordinate, while the row order, the
extra columns and any already-present designation or coordinate are preserved
unchanged. -/
theorem prepDB_adds_designation_and_coordinates (t : List SourceRecord)
    (h1 : ∀ r ∈ t, r.designation.isSome ∨ r.coord.isSome)
    (h2 : ∀ r ∈ t, r.coord = none → ∀ d ∈ r.designation, d.valid) :
    ∃ t', prepDB t = .ok t' ∧ t'.length = t.length ∧
      ∀ i r, t.get? i = some r → ∃ r', t'.get? i = some r' ∧
        r'.designation.isSome ∧ r'.coord.isSome ∧ r'.extra = r.extra ∧
        (∀ d, r.designation = some d → r'.designation = some d) ∧
        (∀ c, r.coord = some c → r'.coord = some c) := by
  induction t with
  | nil =>
    refine ⟨[], rfl, rfl, ?_⟩
    intro i r hir
    simp at hir
  | cons r rest ih =>
    obtain ⟨r', hr'⟩ := prepRow_ok_of r (h1 r (by simp)) (h2 r (by simp))
    obtain ⟨rest', hrest, hlen, hidx⟩ :=
      ih (fun x hx => h1 x (by simp [hx])) (fun x hx => h2 x (by simp [hx]))
    refine ⟨r' :: rest', ?_, by simp [hlen], ?_⟩
    · unfold prepDB
      rw [hr', hrest]
    · intro i x hix
      cases i with
      | zero =>
        have hx : x = r := by
          simp only [List.get?_cons_zero] at hix
          exact (Option.some_inj.mp hix).symm
        subst hx
        obtain ⟨ha, hb, hc, hd, he⟩ := prepRow_ok_fields hr'
        exact ⟨r', by simp, ha, hb, hc, hd, he⟩
      | succ n =>
        simp only [List.get?_cons_succ] at hix
        obtain ⟨x', hx', hrest'⟩ := hidx n x hix
        exact ⟨x', by simpa using hx', hrest'⟩

/-- The table-preparation theorem instantiated at a concrete two-row table
(one coordinate-only row, one designation-only row). -/
theorem prepDB_adds_designation_and_coordinates_witness :
    ∃ t', prepDB [SourceRecord.mk none (some (Coordinate.mk 15 30)) [("ID", some 1)],
        SourceRecord.mk (some (Desig.mk 2 3 4 true 5 6 7)) none [("ID", some 2)]]
      = .ok t' ∧
      t'.length = (2 : ℕ) ∧
      ∀ i r,
        ([SourceRecord.mk none (some (Coordinate.mk 15 30)) [("ID", some 1)],
          SourceRecord.mk (some (Desig.mk 2 3 4 true 5 6 7)) none [("ID", some 2)]].get? i)
          = some r →
        ∃ r', t'.get? i = some r' ∧
          r'.designation.isSome ∧ r'.coord.isSome ∧ r'.extra = r.extra ∧
          (∀ d, r.designation = some d → r'.designation = some d) ∧
          (∀ c, r.coord = some c → r'.coord = some c) := by
  obtain ⟨t', ht, hl, hp⟩ := prepDB_adds_designation_and_coordinates
    [SourceRecord.mk none (some (Coordinate.mk 15 30)) [("ID", some 1)],
      SourceRecord.mk (some (Desig.mk 2 3 4 true 5 6 7)) none [("ID", some 2)]]
    (by decide)
    (by
      intro r hr hc d hd
      simp only [List.mem_cons, List.not_mem_nil, or_false] at hr
      rcases hr with rfl | rfl
      · simp at hc
      · simp only [Option.mem_def, Option.some_inj] at hd
        subst hd
        decide)
  exact ⟨t', ht, by simpa using hl, hp⟩

lemma head?_sortBySep (l : List CatalogEntry) : (sortBySep l).head? = firstMin l := by
  induction l with
  | nil => rfl
  | cons e rest ih =>
    simp only [sortBySep, firstMin]
    cases hs : sortBySep rest with
    | nil =>
      rw [hs] at ih
      simp only [List.head?] at ih
      rw [← ih]
      simp [insertBySep]
    | cons f tail =>
      rw [hs] at ih
      simp only [List.head?] at ih
      rw [← ih]
      simp only [insertBySep]
      by_cases hef : e.separation ≤ f.separation
      · rw [if_pos hef, if_neg (not_lt.mpr hef)]
        simp
      · rw [if_neg hef, if_pos (not_le.mp hef)]
        simp

lemma length_insertBySep (e : CatalogEntry) (l : List CatalogEntry) :
    (insertBySep e l).length = l.length + 1 := by
  induction l with
  | nil => rfl
  | cons f rest ih =>
    simp only [insertBySep]
    by_cases hef : e.separation ≤ f.separation
    · rw [if_pos hef]
      simp
    · rw [if_neg hef]
      simp [ih]

lemma length_sortBySep (l : List CatalogEntry) : (sortBySep l).length = l.length := by
  induction l with
  | nil => rfl
  | cons e rest ih => simp [sortBySep, length_insertBySep, ih]

lemma firstMin_mem {l : List CatalogEntry} {m : CatalogEntry}
    (h : firstMin l = some m) : m ∈ l := by
  induction l with
  | nil => simp [firstMin] at h
  | cons e rest ih =>
    simp only [firstMin] at h
    cases hs : firstMin rest with
    | none =>
      rw [hs] at h
      simp only [Option.some_inj] at h
      simp [← h]
    | some m' =>
      rw [hs] at h
      simp only [Option.some_inj] at h
      by_cases hlt : m'.separation < e.separation
      · rw [if_pos hlt] at h
        subst h
        exact List.mem_cons_of_mem _ (ih hs)
      · rw [if_neg hlt] at h
        simp [← h]

lemma firstMin_eq_none {l : List CatalogEntry} (h : firstMin l = none) : l = [] := by
  cases l with
  | nil => rfl
  | cons e rest =>
    simp only [firstMin] at h
    cases hs : firstMin rest <;> rw [hs] at h <;> simp at h

lemma firstMin_min :
    ∀ (l : List CatalogEntry) (m : CatalogEntry), firstMin l = some m →
      ∀ e ∈ l, m.separation ≤ e.separation := by
  intro l
  induction l with
  | nil =>
    intro m h
    simp [firstMin] at h
  | cons e rest ih =>
    intro m h x hx
    simp only [firstMin] at h
    rcases List.mem_cons.mp hx with rfl | hx'
    · cases hs : firstMin rest with
      | none =>
        rw [hs] at h
        simp only [Option.some_inj] at h
        rw [← h]
      | some m' =>
        rw [hs] at h
        simp only [Option.some_inj] at h
        by_cases hlt : m'.separation < x.separation
        · rw [if_pos hlt] at h
          rw [← h]
          exact le_of_lt hlt
        · rw [if_neg hlt] at h
          rw [← h]
    · cases hs : firstMin rest with
      | none =>
        have := firstMin_eq_none hs
        subst this
        simp at hx'
      | some m' =>
        rw [hs] at h
        simp only [Option.some_inj] at h
        have hm' := ih m' hs x hx'
        by_cases hlt : m'.separation < e.separation
        · rw [if_pos hlt] at h
          rw [← h]
          exact hm'
        · rw [if_neg hlt] at h
          rw [← h]
          exact le_trans (not_lt.mp hlt) hm'

lemma firstMin_earliest {l : List CatalogEntry} {m : CatalogEntry}
    (h : firstMin l = some m) :
    ∃ i, l.get? i = some m ∧
      ∀ j e, j < i → l.get? j = some e → m.separation < e.separation := by
  induction l with
  | nil => simp [firstMin] at h
  | cons x rest ih =>
    simp only [firstMin] at h
    cases hs : firstMin rest with
    | none =>
      rw [hs] at h
      simp only [Option.some_inj] at h
      subst h
      exact ⟨0, rfl, fun j e hj => absurd hj (by omega)⟩
    | some m' =>
      rw [hs] at h
      simp only [Option.some_inj] at h
      by_cases hlt : m'.separation < x.separation
      · rw [if_pos hlt] at h
        subst h
        obtain ⟨i, hi, hearly⟩ := ih hs
        refine ⟨i + 1, by simpa using hi, ?_⟩
        intro j e hj hje
        cases j with
        | zero =>
          simp only [List.get?_cons_zero, Option.some_inj] at hje
          subst hje
          exact hlt
        | succ n =>
          simp only [List.get?_cons_succ] at hje
          exact hearly n e (by omega) hje
      · rw [if_neg hlt] at h
        subst h
        exact ⟨0, rfl, fun j e hj => absurd hj (by omega)⟩

lemma head?_take_one {α : Type} (l : List α) : (l.take 1).head? = l.head? := by
  cases l <;> rfl

/-- C4: with the nearest-only flag and a positive radius, the single-source
lookup returns at most one entry; its head is the earliest minimum-separation
candidate within the radius, one entry is returned whenever a candidate
within the radius exists, the returned entry lies within the radius, no
candidate within the radius has a strictly smaller separation, and every
candidate earlier in catalog-return order has a strictly larger separation
(stable tie-breaking). -/
theorem getPhotometry_nearest_minimal (entries : List CatalogEntry) (rad : ℚ)
    (hrad : 0 < rad) :
    ∃ res, getPhotometry (.ok entries) (some rad) true = .ok res ∧
      res.length ≤ 1 ∧
      res.head? = firstMin (entries.filter (fun e => decide (e.separation ≤ rad))) ∧
      (entries.filter (fun e => decide (e.separation ≤ rad)) ≠ [] → ∃ m, res = [m]) ∧
      (∀ m, res.head? = some m →
        m ∈ entries ∧ m.separation ≤ rad ∧
        (∀ e ∈ entries, e.separation ≤ rad → m.separation ≤ e.separation) ∧
        ∃ i, (entries.filter (fun e => decide (e.separation ≤ rad))).get? i = some m ∧
          ∀ j e, j < i →
            (entries.filter (fun e => decide (e.separation ≤ rad))).get? j = some e →
            m.separation < e.separation) := by
  refine ⟨(sortBySep (entries.filter (fun e => decide (e.separation ≤ rad)))).take 1,
    ?_, ?_, ?_, ?_, ?_⟩
  · simp only [getPhotometry]
    rw [if_neg (not_le.mpr hrad)]
    rfl
  · exact List.length_take_le 1 _
  · rw [head?_take_one, head?_sortBySep]
  · intro hne
    have hlen : 0 < (sortBySep (entries.filter (fun e => decide (e.separation ≤ rad)))).length := by
      rw [length_sortBySep]
      exact List.length_pos.mpr hne
    cases hs : sortBySep (entries.filter (fun e => decide (e.separation ≤ rad))) with
    | nil =>
      rw [hs] at hlen
      simp at hlen
    | cons a tl => exact ⟨a, rfl⟩
  · intro m hm
    rw [head?_take_one, head?_sortBySep] at hm
    have hmem := firstMin_mem hm
    have hmin := firstMin_min _ _ hm
    have hearly := firstMin_earliest hm
    refine ⟨(List.mem_filter.mp hmem).1, ?_, ?_, hearly⟩
    · have := (List.mem_filter.mp hmem).2
      simpa using this
    · intro e he hesep
      exact hmin e (List.mem_filter.mpr ⟨he, by simpa using hesep⟩)

/-- The nearest-match theorem instantiated at the concrete response with
candidates at separations 12, 5 and 30 arcseconds and a 30 arcsecond radius. -/
theorem getPhotometry_nearest_minimal_witness :
    (0 : ℚ) < 30 ∧
    (∃ res, getPhotometry (.ok sampleEntries) (some 30) true = .ok res ∧
      res.length ≤ 1 ∧
      res.head? = firstMin (sampleEntries.filter (fun e => decide (e.separation ≤ 30))) ∧
      (sampleEntries.filter (fun e => decide (e.separation ≤ 30)) ≠ [] → ∃ m, res = [m]) ∧
      (∀ m, res.head? = some m →
        m ∈ sampleEntries ∧ m.separation ≤ 30 ∧
        (∀ e ∈ sampleEntries, e.separation ≤ 30 → m.separation ≤ e.separation) ∧
        ∃ i, (sampleEntries.filter (fun e => decide (e.separation ≤ 30))).get? i = some m ∧
          ∀ j e, j < i →
            (sampleEntries.filter (fun e => decide (e.separation ≤ 30))).get? j = some e →
            m.separation < e.separation)) :=
  ⟨by decide, getPhotometry_nearest_minimal sampleEntries 30 (by decide)⟩

/-- C9: a missing or non-positive search radius makes the single-source
lookup fail with the invalid-parameter error, and the outcome is identical
for every possible remote-service response — the parameter check is decided
at the call boundary, before any network activity. -/
theorem getPhotometry_invalid_radius (svc₁ svc₂ : Except QueryError (List CatalogEntry))
    (radius : Option ℚ) (nearest : Bool)
    (h : radius = none ∨ ∃ rad, radius = some rad ∧ rad ≤ 0) :
    getPhotometry svc₁ radius nearest = .error .invalidParameter ∧
      getPhotometry svc₁ radius nearest = getPhotometry svc₂ radius nearest := by
  rcases h with rfl | ⟨rad, rfl, hrad⟩
  · exact ⟨rfl, rfl⟩
  · constructor
    · simp only [getPhotometry]
      rw [if_pos hrad]
    · simp only [getPhotometry]
      rw [if_pos hrad, if_pos hrad]

/-- The invalid-radius theorem instantiated at radius -1 with a successful
and a failing remote response. -/
theorem getPhotometry_invalid_radius_witness :
    ((some (-1 : ℚ) : Option ℚ) = none
      ∨ ∃ rad, (some (-1 : ℚ) : Option ℚ) = some rad ∧ rad ≤ 0) ∧
    (getPhotometry (.ok []) (some (-1)) true = .error .invalidParameter ∧
      getPhotometry (.ok []) (some (-1)) true
        = getPhotometry (.error .remoteService) (some (-1)) true) :=
  ⟨Or.inr ⟨-1, rfl, by decide⟩,
    getPhotometry_invalid_radius (.ok []) (.error .remoteService) (some (-1)) true
      (Or.inr ⟨-1, rfl, by decide⟩)⟩

/-- C10: the two public names denote the same operation — for every remote
response, radius and nearest flag the two calls return the same result. -/
theorem queryVizier_eq_getPhotometry (svc : Except QueryError (List CatalogEntry))
    (radius : Option ℚ) (nearest : Bool) :
    queryVizier svc radius nearest = getPhotometry svc radius nearest := rfl

lemma mapWithIndex_length {α β : Type} (f : ℕ → α → β) :
    ∀ (k : ℕ) (l : List α), (mapWithIndex f k l).length = l.length := by
  intro k l
  induction l generalizing k with
  | nil => rfl
  | cons a t ih => simp [mapWithIndex, ih]

lemma mapWithIndex_get? {α β : Type} (f : ℕ → α → β) :
    ∀ (l : List α) (k i : ℕ),
      (mapWithIndex f k l).get? i = (l.get? i).map (fun a => f (k + i) a) := by
  intro l
  induction l with
  | nil => intro k i; rfl
  | cons a t ih =>
    intro k i
    cases i with
    | zero => simp [mapWithIndex]
    | succ m =>
      simp only [mapWithIndex, List.get?_cons_succ]
      rw [ih (k + 1) m]
      rw [show k + 1 + m = k + (m + 1) by omega]

lemma enrichChunk_length (tag : String) (cols : List String) (radius : ℚ)
    (o : Except QueryError (List (ℕ × CatalogEntry))) (chunk : List SourceRecord) :
    (enrichChunk tag cols radius o chunk).length = chunk.length :=
  mapWithIndex_length _ 0 chunk

lemma enrichChunk_get? (tag : String) (cols : List String) (radius : ℚ)
    (o : Except QueryError (List (ℕ × CatalogEntry))) (chunk : List SourceRecord) (i : ℕ) :
    (enrichChunk tag cols radius o chunk).get? i
      = (chunk.get? i).map (fun r => enrichRow tag cols (outcomeMatch o radius i) r) := by
  unfold enrichChunk
  rw [mapWithIndex_get?]
  simp

lemma chunkIndex_lt {n i : ℕ} (hi : i < n + 1) : chunkIndex n i = 0 :=
  Nat.div_eq_of_lt hi

lemma chunkOffset_lt {n i : ℕ} (hi : i < n + 1) : chunkOffset n i = i :=
  Nat.mod_eq_of_lt hi

lemma chunkOf_lt {n i : ℕ} (tbl : List SourceRecord) (hi : i < n + 1) :
    chunkOf n tbl i = tbl.take (n + 1) := by
  simp [chunkOf, chunkIndex_lt hi]

lemma chunkIndex_ge {n i : ℕ} (hi : n + 1 ≤ i) :
    chunkIndex n i = chunkIndex n (i - (n + 1)) + 1 := by
  unfold chunkIndex
  conv_lhs => rw [show i = (i - (n + 1)) + (n + 1) by omega]
  rw [Nat.add_div_right _ (Nat.succ_pos n)]

lemma chunkOffset_ge {n i : ℕ} (hi : n + 1 ≤ i) :
    chunkOffset n i = chunkOffset n (i - (n + 1)) := by
  unfold chunkOffset
  conv_lhs => rw [show i = (i - (n + 1)) + (n + 1) by omega]
  rw [Nat.add_mod_right]

lemma chunkOf_ge {n i : ℕ} (tbl : List SourceRecord) (hi : n + 1 ≤ i) :
    chunkOf n tbl i = chunkOf n (tbl.drop (n + 1)) (i - (n + 1)) := by
  unfold chunkOf
  rw [chunkIndex_ge hi, List.drop_drop]
  congr 2
  ring

lemma xmatchRows_length_aux
    (svc : ℕ → List SourceRecord → Except QueryError (List (ℕ × CatalogEntry)))
    (tag : String) (cols : List String) (radius : ℚ) (n : ℕ) :
    ∀ (N : ℕ) (tbl : List SourceRecord), tbl.length ≤ N →
      ∀ j, (xmatchRows svc tag cols radius n j tbl).length = tbl.length := by
  intro N
  induction N with
  | zero =>
    intro tbl h j
    have hnil : tbl = [] := by
      cases tbl with
      | nil => rfl
      | cons a t => simp at h
    subst hnil
    simp [xmatchRows]
  | succ N ih =>
    intro tbl h j
    cases tbl with
    | nil => simp [xmatchRows]
    | cons r rest =>
      simp only [xmatchRows]
      rw [List.length_append, enrichChunk_length,
        ih ((r :: rest).drop (n + 1))
          (by
            simp only [List.length_drop, List.length_cons]
            simp only [List.length_cons] at h
            omega)
          (j + 1)]
      simp only [List.length_take, List.length_drop, List.length_cons]
      omega

lemma xmatchRows_length
    (svc : ℕ → List SourceRecord → Except QueryError (List (ℕ × CatalogEntry)))
    (tag : String) (cols : List String) (radius : ℚ) (n j : ℕ)
    (tbl : List SourceRecord) :
    (xmatchRows svc tag cols radius n j tbl).length = tbl.length :=
  xmatchRows_length_aux svc tag cols radius n tbl.length tbl le_rfl j

lemma xmatchRows_get?_aux
    (svc : ℕ → List SourceRecord → Except QueryError (List (ℕ × CatalogEntry)))
    (tag : String) (cols : List String) (radius : ℚ) (n : ℕ) :
    ∀ (N : ℕ) (tbl : List SourceRecord), tbl.length ≤ N →
      ∀ j i r, tbl.get? i = some r →
        (xmatchRows svc tag cols radius n j tbl).get? i
          = some (enrichRow tag cols
              (outcomeMatch (svc (j + chunkIndex n i) (chunkOf n tbl i)) radius
                (chunkOffset n i)) r) := by
  intro N
  induction N with
  | zero =>
    intro tbl h j i r hir
    have hnil : tbl = [] := by
      cases tbl with
      | nil => rfl
      | cons a t => simp at h
    subst hnil
    simp at hir
  | succ N ih =>
    intro tbl h j i r hir
    cases tbl with
    | nil => simp at hir
    | cons r₀ rest =>
      have hlt : i < (r₀ :: rest).length := by
        by_contra hge
        push_neg at hge
        rw [List.get?_eq_none.mpr hge] at hir
        exact absurd hir (by simp)
      simp only [xmatchRows]
      by_cases hi : i < n + 1
      · have hA : i < (enrichChunk tag cols radius (svc j ((r₀ :: rest).take (n + 1)))
            ((r₀ :: rest).take (n + 1))).length := by
          rw [enrichChunk_length, List.length_take]
          simp only [List.length_cons] at hlt ⊢
          omega
        rw [List.get?_append hA, enrichChunk_get?, List.get?_take hi, hir]
        simp only [Option.map_some']
        rw [chunkIndex_lt hi, chunkOffset_lt hi, chunkOf_lt _ hi]
        simp
      · push_neg at hi
        have hA : (enrichChunk tag cols radius (svc j ((r₀ :: rest).take (n + 1)))
            ((r₀ :: rest).take (n + 1))).length = n + 1 := by
          rw [enrichChunk_length, List.length_take]
          simp only [List.length_cons] at hlt ⊢
          omega
        rw [List.get?_append_right (by rw [hA]; exact hi), hA]
        have hdir : ((r₀ :: rest).drop (n + 1)).get? (i - (n + 1)) = some r := by
          rw [List.get?_drop, show n + 1 + (i - (n + 1)) = i by omega]
          exact hir
        have hdlen : ((r₀ :: rest).drop (n + 1)).length ≤ N := by
          simp only [List.length_drop, List.length_cons]
          simp only [List.length_cons] at h
          omega
        rw [chunkIndex_ge hi, chunkOffset_ge hi, chunkOf_ge _ hi,
          show j + (chunkIndex n (i - (n + 1)) + 1) = (j + 1) + chunkIndex n (i - (n + 1))
            from by omega]
        exact ih ((r₀ :: rest).drop (n + 1)) hdlen (j + 1) (i - (n + 1)) r hdir

lemma xmatchRows_get?
    (svc : ℕ → List SourceRecord → Except QueryError (List (ℕ × CatalogEntry)))
    (tag : String) (cols : List String) (radius : ℚ) (n i : ℕ)
    (tbl : List SourceRecord) (r : SourceRecord) (hir : tbl.get? i = some r) :
    (xmatchRows svc tag cols radius n 0 tbl).get? i
      = some (enrichRow tag cols
          (outcomeMatch (svc (chunkIndex n i) (chunkOf n tbl i)) radius
            (chunkOffset n i)) r) := by
  have := xmatchRows_get?_aux svc tag cols radius n tbl.length tbl le_rfl 0 i r hir
  rw [Nat.zero_add] at this
  exact this

lemma xmatchFails_mem_aux
    (svc : ℕ → List SourceRecord → Except QueryError (List (ℕ × CatalogEntry))) (n : ℕ) :
    ∀ (N : ℕ) (tbl : List SourceRecord), tbl.length ≤ N →
      ∀ j i e, i < tbl.length →
        svc (j + chunkIndex n i) (chunkOf n tbl i) = .error e →
        (j + chunkIndex n i, e) ∈ xmatchFails svc n j tbl := by
  intro N
  induction N with
  | zero =>
    intro tbl h j i e hilen _
    have hnil : tbl = [] := by
      cases tbl with
      | nil => rfl
      | cons a t => simp at h
    subst hnil
    simp at hilen
  | succ N ih =>
    intro tbl h j i e hilen hsvc
    cases tbl with
    | nil => simp at hilen
    | cons r₀ rest =>
      simp only [xmatchFails]
      by_cases hi : i < n + 1
      · rw [chunkIndex_lt hi, chunkOf_lt _ hi, Nat.add_zero] at hsvc
        rw [chunkIndex_lt hi, Nat.add_zero]
        rw [hsvc]
        simp
      · push_neg at hi
        rw [chunkIndex_ge hi, chunkOf_ge _ hi,
          show j + (chunkIndex n (i - (n + 1)) + 1) = (j + 1) + chunkIndex n (i - (n + 1))
            from by omega] at hsvc
        rw [chunkIndex_ge hi,
          show j + (chunkIndex n (i - (n + 1)) + 1) = (j + 1) + chunkIndex n (i - (n + 1))
            from by omega]
        apply List.mem_append_right
        apply ih ((r₀ :: rest).drop (n + 1))
          (by
            simp only [List.length_drop, List.length_cons]
            simp only [List.length_cons] at h
            omega)
          (j + 1) (i - (n + 1)) e
          (by
            simp only [List.length_drop, List.length_cons]
            simp only [List.length_cons] at hilen
            omega)
          hsvc

lemma xmatchFails_mem
    (svc : ℕ → List SourceRecord → Except QueryError (List (ℕ × CatalogEntry)))
    (n i : ℕ) (e : QueryError) (tbl : List SourceRecord) (hilen : i < tbl.length)
    (hsvc : svc (chunkIndex n i) (chunkOf n tbl i) = .error e) :
    (chunkIndex n i, e) ∈ xmatchFails svc n 0 tbl := by
  have h0 : (0 : ℕ) + chunkIndex n i = chunkIndex n i := Nat.zero_add _
  have := xmatchFails_mem_aux svc n tbl.length tbl le_rfl 0 i e hilen (by rw [h0]; exact hsvc)
  rw [h0] at this
  exact this

lemma appendedColumns_none_sentinel (tag : String) (cols : List String) :
    ∀ p ∈ appendedColumns tag cols none, p.2 = none := by
  intro p hp
  simp only [appendedColumns, List.mem_cons, List.mem_map] at hp
  rcases hp with rfl | rfl | rfl | ⟨c, hc, rfl⟩ <;> rfl

lemma appendedColumns_names (tag : String) (cols : List String) (m : Option CatalogEntry) :
    ∀ p ∈ appendedColumns tag cols m, ∃ base, p.1 = tag ++ "_" ++ base := by
  intro p hp
  simp only [appendedColumns, List.mem_cons, List.mem_map] at hp
  rcases hp with rfl | rfl | rfl | ⟨c, hc, rfl⟩
  exacts [⟨"RA", rfl⟩, ⟨"DEC", rfl⟩, ⟨"angDist", rfl⟩, ⟨c, rfl⟩]

lemma rowMatch_none_of_far (resp : List (ℕ × CatalogEntry)) (radius : ℚ) (i : ℕ)
    (h : ∀ p ∈ resp, p.1 = i → radius < p.2.separation) : rowMatch resp radius i = none := by
  unfold rowMatch
  have hfil : resp.filter (fun p => decide (p.1 = i) && decide (p.2.separation ≤ radius)) = [] := by
    rw [List.filter_eq_nil]
    intro p hp
    simp only [Bool.and_eq_true, decide_eq_true_eq, not_and]
    intro hkey
    exact not_le.mpr (h p hp hkey)
  rw [hfil]
  rfl

lemma string_append_ne {s t : String} (u : String) (h : s ≠ t) : s ++ u ≠ t ++ u := by
  intro he
  apply h
  cases s with
  | mk sd =>
  cases t with
  | mk td =>
  cases u with
  | mk ud =>
  simp only [HAppend.hAppend, Append.append, String.append] at he
  injection he with h2
  have := List.append_cancel_right h2
  rw [this]

lemma tag_names_distinct {tag₁ tag₂ : String} (h : tag₁ ≠ tag₂) (base : String) :
    tag₁ ++ "_" ++ base ≠ tag₂ ++ "_" ++ base :=
  string_append_ne base (string_append_ne "_" h)

lemma get?_some_lt {α : Type} {l : List α} {i : ℕ} {a : α} (h : l.get? i = some a) :
    i < l.length := by
  by_contra hge
  push_neg at hge
  rw [List.get?_eq_none.mpr hge] at h
  exact absurd h (by simp)

lemma queryXMatch_table
    (svc : ℕ → List SourceRecord → Except QueryError (List (ℕ × CatalogEntry)))
    (cat : Catalog) (tbl : List SourceRecord) (radius : ℚ) (selectCols : List String)
    (useSelect : Bool) (aliasOpt : Option String) (n : ℕ) :
    (queryXMatch svc cat tbl radius selectCols useSelect aliasOpt n).table
      = xmatchRows svc (catalogTag cat aliasOpt)
          (effectiveColumns cat selectCols useSelect) radius n 0 tbl := rfl

lemma queryXMatch_failures
    (svc : ℕ → List SourceRecord → Except QueryError (List (ℕ × CatalogEntry)))
    (cat : Catalog) (tbl : List SourceRecord) (radius : ℚ) (selectCols : List String)
    (useSelect : Bool) (aliasOpt : Option String) (n : ℕ) :
    (queryXMatch svc cat tbl radius selectCols useSelect aliasOpt n).failures
      = xmatchFails svc n 0 tbl := rfl

lemma queryXMatch_warnings
    (svc : ℕ → List SourceRecord → Except QueryError (List (ℕ × CatalogEntry)))
    (cat : Catalog) (tbl : List SourceRecord) (radius : ℚ) (selectCols : List String)
    (useSelect : Bool) (aliasOpt : Option String) (n : ℕ) :
    (queryXMatch svc cat tbl radius selectCols useSelect aliasOpt n).warnings
      = columnWarnings cat selectCols useSelect := rfl

/-- C1: the batch cross-match returns a table with exactly as many rows as
the input; output row `i` is input row `i` with the enrichment cells appended
after its original cells, so rows are never dropped or reordered; when the
chunk's response succeeds the appended match is exactly the row's nearest
in-radius candidate, so a row none of whose own keyed candidates lies within
the radius gets the sentinel match — even when other rows of the same chunk
do match — and a sentinel match puts `none` in every appended cell. -/
theorem queryXMatch_row_alignment
    (svc : ℕ → List SourceRecord → Except QueryError (List (ℕ × CatalogEntry)))
    (cat : Catalog) (tbl : List SourceRecord) (radius : ℚ) (selectCols : List String)
    (useSelect : Bool) (aliasOpt : Option String) (n i : ℕ) (r : SourceRecord)
    (hir : tbl.get? i = some r) :
    (queryXMatch svc cat tbl radius selectCols useSelect aliasOpt n).table.length
      = tbl.length ∧
    ∃ m, (queryXMatch svc cat tbl radius selectCols useSelect aliasOpt n).table.get? i
        = some (enrichRow (catalogTag cat aliasOpt)
            (effectiveColumns cat selectCols useSelect) m r) ∧
      (∀ resp, svc (chunkIndex n i) (chunkOf n tbl i) = .ok resp →
        m = rowMatch resp radius (chunkOffset n i)) ∧
      (∀ resp, svc (chunkIndex n i) (chunkOf n tbl i) = .ok resp →
        (∀ p ∈ resp, p.1 = chunkOffset n i → radius < p.2.separation) → m = none) ∧
      (∀ p ∈ appendedColumns (catalogTag cat aliasOpt)
          (effectiveColumns cat selectCols useSelect) none, p.2 = none) := by
  rw [queryXMatch_table]
  refine ⟨xmatchRows_length _ _ _ _ _ _ _,
    outcomeMatch (svc (chunkIndex n i) (chunkOf n tbl i)) radius (chunkOffset n i),
    xmatchRows_get? svc _ _ radius n i tbl r hir, ?_, ?_, appendedColumns_none_sentinel _ _⟩
  · intro resp hresp
    rw [hresp]
    rfl
  · intro resp hresp hfar
    rw [hresp]
    simp only [outcomeMatch]
    exact rowMatch_none_of_far resp radius _ hfar

/-- The row-alignment theorem instantiated at row 0 of a concrete three-row
table cross-matched in single-row chunks. -/
theorem queryXMatch_row_alignment_witness :
    wTable.get? 0 = some (SourceRecord.mk none (some (Coordinate.mk 1 1)) [("ID", some 1)]) ∧
    ((queryXMatch wSvc wCatalog wTable 30 ["Jmag", "JUNK"] false none 0).table.length
        = wTable.length ∧
      ∃ m, (queryXMatch wSvc wCatalog wTable 30 ["Jmag", "JUNK"] false none 0).table.get? 0
          = some (enrichRow (catalogTag wCatalog none)
              (effectiveColumns wCatalog ["Jmag", "JUNK"] false) m
              (SourceRecord.mk none (some (Coordinate.mk 1 1)) [("ID", some 1)])) ∧
        (∀ resp, wSvc (chunkIndex 0 0) (chunkOf 0 wTable 0) = .ok resp →
          m = rowMatch resp 30 (chunkOffset 0 0)) ∧
        (∀ resp, wSvc (chunkIndex 0 0) (chunkOf 0 wTable 0) = .ok resp →
          (∀ p ∈ resp, p.1 = chunkOffset 0 0 → (30 : ℚ) < p.2.separation) → m = none) ∧
        (∀ p ∈ appendedColumns (catalogTag wCatalog none)
            (effectiveColumns wCatalog ["Jmag", "JUNK"] false) none, p.2 = none)) :=
  ⟨rfl, queryXMatch_row_alignment wSvc wCatalog wTable 30 ["Jmag", "JUNK"] false none 0 0
    (SourceRecord.mk none (some (Coordinate.mk 1 1)) [("ID", some 1)]) rfl⟩

/-- C2: chunk failures are isolated.  The batch cross-match always returns a
full-length table; a row whose chunk's request failed is returned with the
sentinel in every appended cell and the failure is recorded with the chunk
index; a row whose chunk's request succeeded is populated with its computed
nearest in-radius match. -/
theorem queryXMatch_chunk_failure_isolation
    (svc : ℕ → List SourceRecord → Except QueryError (List (ℕ × CatalogEntry)))
    (cat : Catalog) (tbl : List SourceRecord) (radius : ℚ) (selectCols : List String)
    (useSelect : Bool) (aliasOpt : Option String) (n i : ℕ) (r : SourceRecord)
    (hir : tbl.get? i = some r) :
    (queryXMatch svc cat tbl radius selectCols useSelect aliasOpt n).table.length
      = tbl.length ∧
    (∀ e, svc (chunkIndex n i) (chunkOf n tbl i) = .error e →
      (queryXMatch svc cat tbl radius selectCols useSelect aliasOpt n).table.get? i
          = some (enrichRow (catalogTag cat aliasOpt)
              (effectiveColumns cat selectCols useSelect) none r) ∧
        (chunkIndex n i, e)
          ∈ (queryXMatch svc cat tbl radius selectCols useSelect aliasOpt n).failures ∧
        ∀ p ∈ appendedColumns (catalogTag cat aliasOpt)
            (effectiveColumns cat selectCols useSelect) none, p.2 = none) ∧
    (∀ resp, svc (chunkIndex n i) (chunkOf n tbl i) = .ok resp →
      (queryXMatch svc cat tbl radius selectCols useSelect aliasOpt n).table.get? i
        = some (enrichRow (catalogTag cat aliasOpt)
            (effectiveColumns cat selectCols useSelect)
            (rowMatch resp radius (chunkOffset n i)) r)) := by
  rw [queryXMatch_table, queryXMatch_failures]
  refine ⟨xmatchRows_length _ _ _ _ _ _ _, ?_, ?_⟩
  · intro e he
    refine ⟨?_, xmatchFails_mem svc n i e tbl (get?_some_lt hir) he,
      appendedColumns_none_sentinel _ _⟩
    have := xmatchRows_get? svc (catalogTag cat aliasOpt)
      (effectiveColumns cat selectCols useSelect) radius n i tbl r hir
    rw [he] at this
    simpa only [outcomeMatch] using this
  · intro resp hresp
    have := xmatchRows_get? svc (catalogTag cat aliasOpt)
      (effectiveColumns cat selectCols useSelect) radius n i tbl r hir
    rw [hresp] at this
    simpa only [outcomeMatch] using this

/-- The chunk-failure theorem instantiated at row 1 of a three-row table
cross-matched in single-row chunks, with a service that fails exactly on
chunk 1. -/
theorem queryXMatch_chunk_failure_isolation_witness :
    wTable.get? 1 = some (SourceRecord.mk none (some (Coordinate.mk 2 2)) [("ID", some 2)]) ∧
    ((queryXMatch wSvc wCatalog wTable 30 ["Jmag"] false none 0).table.length
        = wTable.length ∧
      (∀ e, wSvc (chunkIndex 0 1) (chunkOf 0 wTable 1) = .error e →
        (queryXMatch wSvc wCatalog wTable 30 ["Jmag"] false none 0).table.get? 1
            = some (enrichRow (catalogTag wCatalog none)
                (effectiveColumns wCatalog ["Jmag"] false) none
                (SourceRecord.mk none (some (Coordinate.mk 2 2)) [("ID", some 2)])) ∧
          (chunkIndex 0 1, e)
            ∈ (queryXMatch wSvc wCatalog wTable 30 ["Jmag"] false none 0).failures ∧
          ∀ p ∈ appendedColumns (catalogTag wCatalog none)
              (effectiveColumns wCatalog ["Jmag"] false) none, p.2 = none) ∧
      (∀ resp, wSvc (chunkIndex 0 1) (chunkOf 0 wTable 1) = .ok resp →
        (queryXMatch wSvc wCatalog wTable 30 ["Jmag"] false none 0).table.get? 1
          = some (enrichRow (catalogTag wCatalog none)
              (effectiveColumns wCatalog ["Jmag"] false)
              (rowMatch resp 30 (chunkOffset 0 1))
              (SourceRecord.mk none (some (Coordinate.mk 2 2)) [("ID", some 2)])))) :=
  ⟨rfl, queryXMatch_chunk_failure_isolation wSvc wCatalog wTable 30 ["Jmag"] false none 0 1
    (SourceRecord.mk none (some (Coordinate.mk 2 2)) [("ID", some 2)]) rfl⟩

/-- C6: every cell appended by an enrichment carries a column name qualified
by the catalog tag; chaining two enrichments with distinct tags appends both
tagged groups after the original cells of the row — the original columns are
preserved as a prefix, and an identically named catalog field yields two
distinct column names, never a silent overwrite. -/
theorem queryXMatch_column_tagging
    (svc₁ svc₂ : ℕ → List SourceRecord → Except QueryError (List (ℕ × CatalogEntry)))
    (cat₁ cat₂ : Catalog) (tbl : List SourceRecord) (radius₁ radius₂ : ℚ)
    (sel₁ sel₂ : List String) (use₁ use₂ : Bool) (alias₁ alias₂ : Option String)
    (n₁ n₂ i : ℕ) (r : SourceRecord) (hir : tbl.get? i = some r)
    (htag : catalogTag cat₁ alias₁ ≠ catalogTag cat₂ alias₂) :
    ∃ m₁ m₂,
      (queryXMatch svc₂ cat₂
          (queryXMatch svc₁ cat₁ tbl radius₁ sel₁ use₁ alias₁ n₁).table
          radius₂ sel₂ use₂ alias₂ n₂).table.get? i
        = some (SourceRecord.mk r.designation r.coord
            (r.extra
              ++ appendedColumns (catalogTag cat₁ alias₁)
                  (effectiveColumns cat₁ sel₁ use₁) m₁
              ++ appendedColumns (catalogTag cat₂ alias₂)
                  (effectiveColumns cat₂ sel₂ use₂) m₂)) ∧
      (∀ p ∈ appendedColumns (catalogTag cat₁ alias₁)
          (effectiveColumns cat₁ sel₁ use₁) m₁,
        ∃ base, p.1 = catalogTag cat₁ alias₁ ++ "_" ++ base) ∧
      (∀ p ∈ appendedColumns (catalogTag cat₂ alias₂)
          (effectiveColumns cat₂ sel₂ use₂) m₂,
        ∃ base, p.1 = catalogTag cat₂ alias₂ ++ "_" ++ base) ∧
      (∀ base, catalogTag cat₁ alias₁ ++ "_" ++ base
          ≠ catalogTag cat₂ alias₂ ++ "_" ++ base) := by
  have h1 : (queryXMatch svc₁ cat₁ tbl radius₁ sel₁ use₁ alias₁ n₁).table.get? i
      = some (enrichRow (catalogTag cat₁ alias₁) (effectiveColumns cat₁ sel₁ use₁)
          (outcomeMatch (svc₁ (chunkIndex n₁ i) (chunkOf n₁ tbl i)) radius₁
            (chunkOffset n₁ i)) r) := by
    rw [queryXMatch_table]
    exact xmatchRows_get? svc₁ _ _ radius₁ n₁ i tbl r hir
  have h2 := xmatchRows_get? svc₂ (catalogTag cat₂ alias₂)
    (effectiveColumns cat₂ sel₂ use₂) radius₂ n₂ i
    (queryXMatch svc₁ cat₁ tbl radius₁ sel₁ use₁ alias₁ n₁).table _ h1
  exact ⟨outcomeMatch (svc₁ (chunkIndex n₁ i) (chunkOf n₁ tbl i)) radius₁ (chunkOffset n₁ i),
    outcomeMatch (svc₂ (chunkIndex n₂ i)
      (chunkOf n₂ (queryXMatch svc₁ cat₁ tbl radius₁ sel₁ use₁ alias₁ n₁).table i)) radius₂
      (chunkOffset n₂ i),
    h2, appendedColumns_names _ _ _, appendedColumns_names _ _ _, tag_names_distinct htag⟩

/-- The column-tagging theorem instantiated at row 0 of a concrete table
enriched first against one catalog and then against a second catalog that
defines the same field name under a different identifier. -/
theorem queryXMatch_column_tagging_witness :
    (wTable.get? 0 = some (SourceRecord.mk none (some (Coordinate.mk 1 1)) [("ID", some 1)]) ∧
      catalogTag wCatalog none ≠ catalogTag wCatalogB none) ∧
    (∃ m₁ m₂,
      (queryXMatch wSvc wCatalogB
          (queryXMatch wSvc wCatalog wTable 30 ["Jmag"] false none 0).table
          30 ["Jmag"] false none 0).table.get? 0
        = some (SourceRecord.mk
            (SourceRecord.mk none (some (Coordinate.mk 1 1)) [("ID", some 1)]).designation
            (SourceRecord.mk none (some (Coordinate.mk 1 1)) [("ID", some 1)]).coord
            ((SourceRecord.mk none (some (Coordinate.mk 1 1)) [("ID", some 1)]).extra
              ++ appendedColumns (catalogTag wCatalog none)
                  (effectiveColumns wCatalog ["Jmag"] false) m₁
              ++ appendedColumns (catalogTag wCatalogB none)
                  (effectiveColumns wCatalogB ["Jmag"] false) m₂)) ∧
      (∀ p ∈ appendedColumns (catalogTag wCatalog none)
          (effectiveColumns wCatalog ["Jmag"] false) m₁,
        ∃ base, p.1 = catalogTag wCatalog none ++ "_" ++ base) ∧
      (∀ p ∈ appendedColumns (catalogTag wCatalogB none)
          (effectiveColumns wCatalogB ["Jmag"] false) m₂,
        ∃ base, p.1 = catalogTag wCatalogB none ++ "_" ++ base) ∧
      (∀ base, catalogTag wCatalog none ++ "_" ++ base
          ≠ catalogTag wCatalogB none ++ "_" ++ base)) :=
  ⟨⟨rfl, by decide⟩,
    queryXMatch_column_tagging wSvc wSvc wCatalog wCatalogB wTable 30 30 ["Jmag"] ["Jmag"]
      false false none none 0 0 0
      (SourceRecord.mk none (some (Coordinate.mk 1 1)) [("ID", some 1)]) rfl (by decide)⟩

/-- C7: with an explicit allow-list, a requested column that is absent from
the catalog's schema is reported in the warnings and omitted from the kept
columns, every requested column present in the schema is still kept, and the
operation does not fail — the returned table still has one row per input
row. -/
theorem queryXMatch_missing_column_warning
    (svc : ℕ → List SourceRecord → Except QueryError (List (ℕ × CatalogEntry)))
    (cat : Catalog) (tbl : List SourceRecord) (radius : ℚ) (selectCols : List String)
    (aliasOpt : Option String) (n : ℕ) (c : String)
    (hc : c ∈ selectCols) (habs : c ∉ cat.schema) :
    c ∈ (queryXMatch svc cat tbl radius selectCols false aliasOpt n).warnings ∧
    c ∉ effectiveColumns cat selectCols false ∧
    (∀ c' ∈ selectCols, c' ∈ cat.schema → c' ∈ effectiveColumns cat selectCols false) ∧
    (queryXMatch svc cat tbl radius selectCols false aliasOpt n).table.length
      = tbl.length := by
  rw [queryXMatch_warnings, queryXMatch_table]
  refine ⟨?_, ?_, ?_, xmatchRows_length _ _ _ _ _ _ _⟩
  · simp [columnWarnings, List.mem_filter, hc, habs]
  · simp [effectiveColumns, List.mem_filter, habs]
  · intro c' hc' hcs
    simp [effectiveColumns, List.mem_filter, hc', hcs]

/-- The missing-column theorem instantiated with the allow-list
`["Jmag", "JUNK"]` against a catalog whose schema lacks `"JUNK"`. -/
theorem queryXMatch_missing_column_warning_witness :
    ("JUNK" ∈ ["Jmag", "JUNK"] ∧ "JUNK" ∉ wCatalog.schema) ∧
    ("JUNK" ∈ (queryXMatch wSvc wCatalog wTable 30 ["Jmag", "JUNK"] false none 0).warnings ∧
      "JUNK" ∉ effectiveColumns wCatalog ["Jmag", "JUNK"] false ∧
      (∀ c' ∈ ["Jmag", "JUNK"], c' ∈ wCatalog.schema
        → c' ∈ effectiveColumns wCatalog ["Jmag", "JUNK"] false) ∧
      (queryXMatch wSvc wCatalog wTable 30 ["Jmag", "JUNK"] false none 0).table.length
        = wTable.length) :=
  ⟨⟨by decide, by decide⟩,
    queryXMatch_missing_column_warning wSvc wCatalog wTable 30 ["Jmag", "JUNK"] none 0
      "JUNK" (by decide) (by decide)⟩

/-- C8: table preparation is idempotent — a second application to a
successfully prepared table returns that table unchanged. -/
theorem prepDB_idempotent (t t' : List SourceRecord) (h : prepDB t = .ok t') :
    prepDB t' = .ok t' := by
  induction t generalizing t' with
  | nil =>
    unfold prepDB at h
    cases h
    rfl
  | cons r rest ih =>
    unfold prepDB at h
    cases hr : prepRow r with
    | error e =>
      rw [hr] at h
      exact absurd h (by simp)
    | ok r' =>
      rw [hr] at h
      cases hrest : prepDB rest with
      | error e =>
        rw [hrest] at h
        exact absurd h (by simp)
      | ok rest' =>
        rw [hrest] at h
        cases h
        unfold prepDB
        rw [prepRow_idem hr, ih rest' hrest]

/-- The idempotence theorem instantiated at a concrete two-row table. -/
theorem prepDB_idempotent_witness :
    prepDB [SourceRecord.mk none (some (Coordinate.mk 10 20)) [("SNR", some 5)],
        SourceRecord.mk (some (Desig.mk 1 2 3 true 4 5 6)) none []]
      = .ok [SourceRecord.mk (some (coordinateToDesignation (Coordinate.mk 10 20)))
          (some (Coordinate.mk 10 20)) [("SNR", some 5)],
        SourceRecord.mk (some (Desig.mk 1 2 3 true 4 5 6))
          (some (designationToCoordinate (Desig.mk 1 2 3 true 4 5 6))) []] ∧
    prepDB [SourceRecord.mk (some (coordinateToDesignation (Coordinate.mk 10 20)))
          (some (Coordinate.mk 10 20)) [("SNR", some 5)],
        SourceRecord.mk (some (Desig.mk 1 2 3 true 4 5 6))
          (some (designationToCoordinate (Desig.mk 1 2 3 true 4 5 6))) []]
      = .ok [SourceRecord.mk (some (coordinateToDesignation (Coordinate.mk 10 20)))
          (some (Coordinate.mk 10 20)) [("SNR", some 5)],
        SourceRecord.mk (some (Desig.mk 1 2 3 true 4 5 6))
          (some (designationToCoordinate (Desig.mk 1 2 3 true 4 5 6))) []] :=
  ⟨rfl, prepDB_idempotent
    [SourceRecord.mk none (some (Coordinate.mk 10 20)) [("SNR", some 5)],
      SourceRecord.mk (some (Desig.mk 1 2 3 true 4 5 6)) none []]
    [SourceRecord.mk (some (coordinateToDesignation (Coordinate.mk 10 20)))
        (some (Coordinate.mk 10 20)) [("SNR", some 5)],
      SourceRecord.mk (some (Desig.mk 1 2 3 true 4 5 6))
        (some (designationToCoordinate (Desig.mk 1 2 3 true 4 5 6))) []]
    rfl⟩

end SplatDB
